import Mathlib

/-!
Verification of the product-catalog viewer (supabase-ui).

The sources are three variants of a single React component `App`:
`src/src/App.tsx` (an automatic-recompute variant with a `useEffect` on
`[selectedBrand, selectedCategory, search, products]`, plus a second
variant with an explicit Apply button after a document separator) and
`src/unnamed/part_000` (also an Apply-button variant).  All three share
the same `Product` type, `applyFilters`, `resetFilters`, `fetchProducts`
and `exportToExcel` bodies.

JavaScript strings are modelled as lists of characters (`Str`), and the
string operations used by the code (`trim`, `toLowerCase`, `includes`,
`===`, truthiness of a string) are modelled on that type.
-/

/-- Model of a JavaScript string: a list of characters. -/
abbrev Str := List Char

/-- Model of JavaScript `String.prototype.toLowerCase` (character-wise
lower-casing). -/
def jsToLower (l : Str) : Str := l.map Char.toLower

/-- Model of JavaScript `String.prototype.trim`: drop whitespace from both
ends of the string (`Char.isWhitespace` models the JS WhiteSpace and
LineTerminator classes). -/
def jsTrim (l : Str) : Str :=
  ((l.dropWhile Char.isWhitespace).reverse.dropWhile Char.isWhitespace).reverse

/-- The `Product` record from `App.tsx`:
`{ id: number, name: string, category: string, brand: string, price: number }`.
The numeric fields carry JS numbers; the claims never do arithmetic on them,
so they are modelled as an integer id and a rational price. -/
structure Product where
  id : Int
  name : Str
  category : Str
  brand : Str
  price : ℚ
deriving DecidableEq, Repr

/-- The three filter inputs held in component state:
`selectedBrand`, `selectedCategory`, `search` (each a `useState('')`). -/
structure FilterState where
  selectedBrand : Str
  selectedCategory : Str
  search : Str
deriving DecidableEq, Repr

/-- The text predicate of `applyFilters`:
`p.name.toLowerCase().includes(s) || p.brand.toLowerCase().includes(s) ||
p.category.toLowerCase().includes(s)` where `s` is the lower-cased search
string.  JS `includes` is contiguous-substring containment, i.e. `<:+:`. -/
def textMatch (s : Str) (p : Product) : Bool :=
  decide (s <:+: jsToLower p.name) || decide (s <:+: jsToLower p.brand) ||
    decide (s <:+: jsToLower p.category)

/-- The pure core of `applyFilters` from `App.tsx`, as a function of the
product list and the three filter inputs it reads.  A JS string is truthy
iff it is non-empty, so `if (selectedBrand)` becomes a test against `[]`,
and `if (search.trim())` tests `jsTrim` against `[]` while the search
needle stays the untrimmed `search.toLowerCase()`. -/
def applyFilters (products : List Product) (fs : FilterState) : List Product :=
  let fd1 := if fs.selectedBrand = [] then products
    else products.filter fun p => decide (p.brand = fs.selectedBrand)
  let fd2 := if fs.selectedCategory = [] then fd1
    else fd1.filter fun p => decide (p.category = fs.selectedCategory)
  let fd3 := if jsTrim fs.search = [] then fd2
    else fd2.filter (textMatch (jsToLower fs.search))
  fd3

/-- Model of `Array.from(new Set(l))` from `fetchProducts`: a JS `Set`
records values in insertion order, skipping values already present, and
`Array.from` reads them back in that order. -/
def setFrom (l : List Str) : List Str :=
  l.foldl (fun acc x => if x ∈ acc then acc else acc ++ [x]) []

/-- Recursive characterisation of insertion-order deduplication: keep the
head, then keep the first occurrences of the tail with the head removed. -/
def dedupFirst : List Str → List Str
  | [] => []
  | a :: l => a :: (dedupFirst l).filter fun b => decide (b ≠ a)
/-- Position of the first occurrence of a value in a list of strings
(the list's length when the value is absent). -/
def firstIdx (x : Str) : List Str → Nat
  | [] => 0
  | a :: l => if a = x then 0 else firstIdx x l + 1

/-- The component state of `App`: the seven `useState` hooks. -/
structure AppState where
  products : List Product
  filtered : List Product
  brands : List Str
  categories : List Str
  selectedBrand : Str
  selectedCategory : Str
  search : Str
deriving DecidableEq, Repr

/-- The filter inputs read by `applyFilters` out of the component state. -/
def stateFS (s : AppState) : FilterState :=
  ⟨s.selectedBrand, s.selectedCategory, s.search⟩

/-- The initial component state: every `useState` starts at `[]` or `''`. -/
def initState : AppState :=
  ⟨[], [], [], [], [], [], []⟩

/-- The events the component reacts to: the three input handlers, the
Apply and Reset buttons, and the two outcomes of the `fetchProducts`
network read. -/
inductive Event where
  | setSearch (v : Str)
  | setBrand (v : Str)
  | setCategory (v : Str)
  | applyClick
  | resetClick
  | fetchSuccess (data : List Product)
  | fetchError (msg : Str)
deriving DecidableEq, Repr

/-- One step of the Apply-button variants (`src/unnamed/part_000` and the
second `App` in `src/src/App.tsx`): each handler performs exactly the
`set*` calls its body contains.  `fetchProducts` on error only logs
(`console.error`) and returns; on success it stores the list twice
(`setProducts`, `setFiltered`) and the two derived sets.  `resetFilters`
clears the three inputs and puts the full list back as `filtered`.  The
Apply button runs `applyFilters` over the current state. -/
def manualStep (s : AppState) : Event → AppState
  | .setSearch v => { s with search := v }
  | .setBrand v => { s with selectedBrand := v }
  | .setCategory v => { s with selectedCategory := v }
  | .applyClick => { s with filtered := applyFilters s.products (stateFS s) }
  | .resetClick =>
      { s with selectedBrand := [], selectedCategory := [], search := [],
               filtered := s.products }
  | .fetchSuccess data =>
      { s with products := data, filtered := data,
               brands := setFrom (data.map Product.brand),
               categories := setFrom (data.map Product.category) }
  | .fetchError _ => s

/-- The dependency array of the recompute effect in the first variant of
`src/src/App.tsx`: `[selectedBrand, selectedCategory, search, products]`. -/
def depsOf (s : AppState) : Str × Str × Str × List Product :=
  (s.selectedBrand, s.selectedCategory, s.search, s.products)

/-- One step of the automatic variant (first `App` in `src/src/App.tsx`).
There is no Apply button, so `applyClick` does nothing.  Every other
event runs its handler and then, like React's `useEffect` on
`[selectedBrand, selectedCategory, search, products]`, recomputes
`filtered` when a dependency changed.  The string dependencies are
compared by value (`Object.is` on strings); `setProducts` always stores a
fresh array, so a successful fetch always retriggers the effect. -/
def autoStep (s : AppState) (e : Event) : AppState :=
  match e with
  | .applyClick => s
  | _ =>
      let t := manualStep s e
      let fetched := match e with | .fetchSuccess _ => true | _ => false
      if fetched || depsOf t ≠ depsOf s then
        { t with filtered := applyFilters t.products (stateFS t) }
      else t

/-- States of the automatic variant reached from start-up by a sequence of
events. -/
def runAuto (es : List Event) : AppState := es.foldl autoStep initState

/-- States of the Apply-button variants reached from start-up by a
sequence of events. -/
def runManual (es : List Event) : AppState := es.foldl manualStep initState

/-- The consistency invariant of §3 of the spec: the visible subset is
what the Filter Engine yields on the current list and filter inputs. -/
def VisibleConsistent (s : AppState) : Prop :=
  s.filtered = applyFilters s.products (stateFS s)

/-- A spreadsheet cell is a number or a string. -/
inductive Cell where
  | num (q : ℚ)
  | str (s : Str)
deriving DecidableEq, Repr

/-- The row `json_to_sheet` derives from one product: its five fields in
object-key order. -/
def productRow (p : Product) : List Cell :=
  [.num p.id, .str p.name, .str p.category, .str p.brand, .num p.price]

/-- The workbook produced by export: one sheet with a header row and data
rows, a sheet name and a download file name. -/
structure Workbook where
  header : List Str
  rows : List (List Cell)
  sheetName : Str
  fileName : Str
deriving DecidableEq, Repr

/-- Modelled from the spec: the external XLSX serialization
(`json_to_sheet`, `book_new`, `book_append_sheet`, `writeFile`) is not
part of this repository, so the Export Adapter is modelled from §4.3 and
§6 of the spec: a tabular document with one header row listing the five
product fields and one data row per record, in order, under a fixed sheet
and file name. -/
def exportToExcel (filtered : List Product) : Workbook :=
  { header := ["id".toList, "name".toList, "category".toList,
               "brand".toList, "price".toList],
    rows := filtered.map productRow,
    sheetName := "Products".toList,
    fileName := "Filtered_Products.xlsx".toList }
/-- Concrete product used by witnesses and counterexamples. -/
def sampleProduct : Product := ⟨1, "a".toList, "c".toList, "b".toList, 0⟩

/-- Filter state whose search consists of a single space. -/
def wsFilterState : FilterState := ⟨[], [], [' ']⟩

/-- Filter state with every input empty, as produced by `resetFilters`. -/
def emptyFilterState : FilterState := ⟨[], [], []⟩

/-- The conjunctive-filtering predicate of §8 of the spec, following the
claim's words: the text clause is guarded by `textQuery` being empty (not
empty after trimming) and matched with the lower-cased `textQuery`. -/
def specFilterPred (fs : FilterState) (p : Product) : Prop :=
  (fs.selectedBrand = [] ∨ p.brand = fs.selectedBrand) ∧
    (fs.selectedCategory = [] ∨ p.category = fs.selectedCategory) ∧
    (fs.search = [] ∨ jsToLower fs.search <:+: jsToLower p.name ∨
      jsToLower fs.search <:+: jsToLower p.brand ∨
      jsToLower fs.search <:+: jsToLower p.category)

/-- The trimmed string is empty exactly when every character of the
string is whitespace (in particular when the string is empty), so the
guard `if (search.trim())` is inactive exactly for whitespace-only
searches. -/
theorem jsTrim_eq_nil_iff (l : Str) :
    jsTrim l = [] ↔ ∀ c ∈ l, c.isWhitespace := by
  unfold jsTrim
  rw [List.reverse_eq_nil_iff, List.dropWhile_eq_nil_iff]
  constructor
  · intro h c hc
    have hsplit := List.takeWhile_append_dropWhile Char.isWhitespace l
    rw [← hsplit] at hc
    rcases List.mem_append.mp hc with h1 | h2
    · exact List.mem_takeWhile_imp h1
    · exact h c (List.mem_reverse.mpr h2)
  · intro h c hc
    exact h c ((List.dropWhile_sublist Char.isWhitespace).subset
      (List.mem_reverse.mp hc))

/-- Membership in a conditionally applied filter stage. -/
theorem mem_stage {c : Prop} [Decidable c] {l : List Product}
    {f : Product → Bool} {p : Product} :
    p ∈ (if c then l else l.filter f) ↔ p ∈ l ∧ (c ∨ f p = true) := by
  split
  · next h => exact ⟨fun hp => ⟨hp, Or.inl h⟩, fun h => h.1⟩
  · next h =>
      rw [List.mem_filter]
      exact ⟨fun hp => ⟨hp.1, Or.inr hp.2⟩,
        fun hp => ⟨hp.1, hp.2.resolve_left h⟩⟩

/-- Membership characterisation of `applyFilters`: a product is kept iff
it is in the input and passes each active predicate, the text predicate
being activated by the trimmed search but matched with the untrimmed
lower-cased search. -/
theorem mem_applyFilters {all : List Product} {fs : FilterState}
    {p : Product} :
    p ∈ applyFilters all fs ↔
      p ∈ all ∧ (fs.selectedBrand = [] ∨ p.brand = fs.selectedBrand) ∧
        (fs.selectedCategory = [] ∨ p.category = fs.selectedCategory) ∧
        (jsTrim fs.search = [] ∨
          jsToLower fs.search <:+: jsToLower p.name ∨
          jsToLower fs.search <:+: jsToLower p.brand ∨
          jsToLower fs.search <:+: jsToLower p.category) := by
  show p ∈ (if jsTrim fs.search = [] then _ else _) ↔ _
  rw [mem_stage, mem_stage, mem_stage]
  simp only [textMatch, Bool.or_eq_true, decide_eq_true_eq]
  tauto

/-- A conditionally applied filter stage yields a sublist. -/
theorem stage_sublist (c : Prop) [Decidable c] (l : List Product)
    (f : Product → Bool) : (if c then l else l.filter f).Sublist l := by
  split
  · exact List.Sublist.refl l
  · exact List.filter_sublist l

/-- The output of `applyFilters` is a sublist (ordered subsequence) of
its input. -/
theorem applyFilters_sublist (all : List Product) (fs : FilterState) :
    (applyFilters all fs).Sublist all := by
  unfold applyFilters
  exact ((stage_sublist _ _ _).trans (stage_sublist _ _ _)).trans
    (stage_sublist (fs.selectedBrand = []) all _)

/-- With all three filter inputs empty, `applyFilters` returns its input
unchanged: the brand and category guards are skipped and the trimmed
empty search deactivates the text predicate. -/
theorem applyFilters_empty_state (all : List Product) :
    applyFilters all ⟨[], [], []⟩ = all := rfl

/-- Insertion-order deduplication keeps exactly the elements of the
input. -/
theorem mem_dedupFirst {x : Str} {l : List Str} :
    x ∈ dedupFirst l ↔ x ∈ l := by
  induction l with
  | nil => simp [dedupFirst]
  | cons a l ih =>
      simp only [dedupFirst, List.mem_cons, List.mem_filter,
        decide_eq_true_eq, ih]
      constructor
      · rintro (rfl | ⟨hx, _⟩)
        · exact Or.inl rfl
        · exact Or.inr hx
      · rintro (rfl | hx)
        · exact Or.inl rfl
        · by_cases hxa : x = a
          · exact Or.inl hxa
          · exact Or.inr ⟨hx, hxa⟩

/-- Filtering commutes with insertion-order deduplication. -/
theorem filter_dedupFirst (p : Str → Bool) (l : List Str) :
    (dedupFirst l).filter p = dedupFirst (l.filter p) := by
  induction l with
  | nil => rfl
  | cons a l ih =>
      by_cases hpa : p a = true
      · rw [dedupFirst, List.filter_cons_of_pos hpa, List.filter_cons_of_pos hpa,
          dedupFirst, ← ih, List.filter_filter, List.filter_filter]
        exact congrArg _ (List.filter_congr fun x _ => by rw [Bool.and_comm])
      · rw [dedupFirst, List.filter_cons_of_neg hpa, List.filter_cons_of_neg hpa,
          List.filter_filter, ← ih]
        apply List.filter_congr
        intro b hb
        by_cases hba : b = a
        · subst hba
          simp [hpa]
        · simp [hba]

/-- Evaluating the `fetchProducts` set-building fold from an arbitrary
already-collected prefix. -/
theorem foldl_insert_eq (l : List Str) : ∀ acc : List Str,
    l.foldl (fun acc x => if x ∈ acc then acc else acc ++ [x]) acc =
      acc ++ dedupFirst (l.filter fun x => decide (x ∉ acc)) := by
  induction l with
  | nil => intro acc; simp [dedupFirst]
  | cons a l ih =>
      intro acc
      rw [List.foldl_cons]
      by_cases ha : a ∈ acc
      · rw [if_pos ha, ih]
        have hd : ¬ (decide (a ∉ acc) = true) := by simpa using ha
        rw [List.filter_cons, if_neg hd]
      · rw [if_neg ha, ih]
        have hd : decide (a ∉ acc) = true := by simpa using ha
        rw [List.filter_cons, if_pos hd, dedupFirst, filter_dedupFirst,
          List.filter_filter, List.append_assoc, List.singleton_append]
        congr 2
        refine congrArg dedupFirst (List.filter_congr ?_)
        intro x _
        by_cases h1 : x = a <;> by_cases h2 : x ∈ acc <;> simp [h1, h2]

/-- The JS `Array.from(new Set(l))` model equals the recursive
insertion-order deduplication. -/
theorem setFrom_eq_dedupFirst (l : List Str) : setFrom l = dedupFirst l := by
  rw [setFrom, foldl_insert_eq, List.nil_append]
  exact congrArg _ ((List.filter_congr fun x _ => by simp).trans
    (List.filter_true l))

/-- The derived distinct-value lists contain exactly the values of the
input list. -/
theorem mem_setFrom {x : Str} {l : List Str} : x ∈ setFrom l ↔ x ∈ l := by
  rw [setFrom_eq_dedupFirst]; exact mem_dedupFirst

/-- The derived distinct-value lists are duplicate-free. -/
theorem nodup_setFrom (l : List Str) : (setFrom l).Nodup := by
  rw [setFrom_eq_dedupFirst]
  induction l with
  | nil => exact List.nodup_nil
  | cons a l ih =>
      rw [dedupFirst, List.nodup_cons]
      refine ⟨fun hmem => ?_, ih.filter _⟩
      have := List.of_mem_filter hmem
      simp at this

/-- The derived distinct-value lists are ordered by first occurrence in
the input list. -/
theorem pairwise_setFrom (l : List Str) :
    (setFrom l).Pairwise fun x y => firstIdx x l < firstIdx y l := by
  rw [setFrom_eq_dedupFirst]
  induction l with
  | nil => exact List.Pairwise.nil
  | cons a l ih =>
      rw [dedupFirst]
      refine List.Pairwise.cons ?_ ?_
      · intro y hy
        have hya : y ≠ a := by
          have := List.of_mem_filter hy
          simpa using this
        simp only [firstIdx, if_pos rfl, if_neg (Ne.symm hya)]
        exact Nat.succ_pos _
      · refine List.Pairwise.imp_of_mem ?_ (ih.filter _)
        intro x y hx hy hxy
        have hxa : x ≠ a := by
          have := List.of_mem_filter hx
          simpa using this
        have hya : y ≠ a := by
          have := List.of_mem_filter hy
          simpa using this
        simp only [firstIdx, if_neg (Ne.symm hxa), if_neg (Ne.symm hya)]
        exact Nat.succ_lt_succ hxy

/-- Recomputing `filtered` through `applyFilters` establishes the
consistency invariant. -/
theorem visibleConsistent_recompute (t : AppState) :
    VisibleConsistent
      { t with filtered := applyFilters t.products (stateFS t) } := rfl

/-- Every event of the automatic variant preserves the consistency
invariant: either the effect refires and recomputes `filtered`, or no
dependency changed and the state (or at least the invariant) is
untouched. -/
theorem visibleConsistent_autoStep (s : AppState) (e : Event)
    (h : VisibleConsistent s) : VisibleConsistent (autoStep s e) := by
  cases e with
  | applyClick => exact h
  | setSearch v =>
      simp only [autoStep]
      split
      · exact visibleConsistent_recompute _
      · next hc =>
          simp only [Bool.false_or, decide_eq_true_iff, not_not,
            depsOf, manualStep, Prod.mk.injEq, true_and, and_true] at hc
          rw [show manualStep s (.setSearch v) = s by
            simp [manualStep, hc]]
          exact h
  | setBrand v =>
      simp only [autoStep]
      split
      · exact visibleConsistent_recompute _
      · next hc =>
          simp only [Bool.false_or, decide_eq_true_iff, not_not,
            depsOf, manualStep, Prod.mk.injEq, true_and, and_true] at hc
          rw [show manualStep s (.setBrand v) = s by
            simp [manualStep, hc]]
          exact h
  | setCategory v =>
      simp only [autoStep]
      split
      · exact visibleConsistent_recompute _
      · next hc =>
          simp only [Bool.false_or, decide_eq_true_iff, not_not,
            depsOf, manualStep, Prod.mk.injEq, true_and, and_true] at hc
          rw [show manualStep s (.setCategory v) = s by
            simp [manualStep, hc]]
          exact h
  | resetClick =>
      simp only [autoStep]
      split
      · exact visibleConsistent_recompute _
      · exact (applyFilters_empty_state s.products).symm
  | fetchSuccess data =>
      simp only [autoStep]
      rw [if_pos (by simp)]
      exact visibleConsistent_recompute _
  | fetchError msg =>
      simp only [autoStep]
      split
      · exact visibleConsistent_recompute _
      · exact h

/-- C1, counterexample: with a whitespace-only search (`' '`), the code
skips the text predicate (because `' '.trim()` is falsy) and keeps the
sample product, while the claim's predicate demands `' '` to occur in a
lower-cased field, which it does not — so the stated equivalence fails. -/
theorem claim1_counterexample :
    ¬ (sampleProduct ∈ applyFilters [sampleProduct] wsFilterState ↔
        specFilterPred wsFilterState sampleProduct) := by
  unfold specFilterPred
  decide

/-- C1, amended: a product is in the output of `applyFilters` iff it is
in the input, its brand and category pass the two exact-match clauses,
and either the search is empty after trimming or the lower-cased
untrimmed search occurs in a lower-cased field. -/
theorem claim1_conjunctive_filtering (all : List Product) (fs : FilterState)
    (p : Product) :
    p ∈ applyFilters all fs ↔
      p ∈ all ∧ (fs.selectedBrand = [] ∨ p.brand = fs.selectedBrand) ∧
        (fs.selectedCategory = [] ∨ p.category = fs.selectedCategory) ∧
        (jsTrim fs.search = [] ∨
          jsToLower fs.search <:+: jsToLower p.name ∨
          jsToLower fs.search <:+: jsToLower p.brand ∨
          jsToLower fs.search <:+: jsToLower p.category) :=
  mem_applyFilters

/-- Steps of the automatic variant preserve the consistency invariant
along any event sequence. -/
theorem visibleConsistent_foldl (es : List Event) :
    ∀ s : AppState, VisibleConsistent s →
      VisibleConsistent (es.foldl autoStep s) := by
  induction es with
  | nil => exact fun s h => h
  | cons e es ih => exact fun s h => ih _ (visibleConsistent_autoStep s e h)

/-- C2, counterexample: in the Apply-button variants, loading one product
and then typing a non-matching search leaves the stale full list visible,
so the visible subset is not what the Filter Engine yields on the current
filter inputs. -/
theorem claim2_counterexample :
    ¬ VisibleConsistent
      (runManual [.fetchSuccess [sampleProduct], .setSearch "zzz".toList]) := by
  unfold VisibleConsistent
  decide

/-- C2, amended: in the automatic-recompute variant, every state
reachable from start-up satisfies the invariant: the visible subset
equals `applyFilters` of the current product list and filter inputs. -/
theorem claim2_visible_consistency (es : List Event) :
    VisibleConsistent (runAuto es) :=
  visibleConsistent_foldl es initState rfl

/-- C3: the exported document has the five product fields as its single
header row and one data row per visible product in order, hence as many
data rows as visible products, and zero data rows for an empty list. -/
theorem claim3_export_rows (visible : List Product) :
    (exportToExcel visible).rows = visible.map productRow ∧
      (exportToExcel visible).rows.length = visible.length ∧
      (exportToExcel visible).header =
        ["id".toList, "name".toList, "category".toList, "brand".toList,
          "price".toList] ∧
      (exportToExcel ([] : List Product)).rows = [] :=
  ⟨rfl, by simp [exportToExcel], rfl, rfl⟩

/-- C4: after a Reset in either variant the filter inputs are all empty,
and the Filter Engine on that reset state returns any product list
unchanged in order and content, whatever the state before the reset. -/
theorem claim4_reset_identity (s : AppState) (all : List Product) :
    applyFilters all (stateFS (autoStep s .resetClick)) = all ∧
      applyFilters all (stateFS (manualStep s .resetClick)) = all ∧
      stateFS (manualStep s .resetClick) = emptyFilterState := by
  refine ⟨?_, applyFilters_empty_state all, rfl⟩
  simp only [autoStep]
  split <;> exact applyFilters_empty_state all

/-- C5: a failed load leaves the whole component state exactly as it was
in both variants, and the pre-call state on the initial load is empty. -/
theorem claim5_load_failure_isolation (s : AppState) (msg : Str) :
    autoStep s (.fetchError msg) = s ∧ manualStep s (.fetchError msg) = s ∧
      initState.products = [] ∧ initState.brands = [] ∧
      initState.categories = [] := by
  refine ⟨?_, rfl, rfl, rfl, rfl⟩
  simp only [autoStep]
  rw [if_neg (by simp [manualStep])]
  rfl

/-- C6: the Filter Engine's output is a sublist of its input, i.e. the
surviving elements appear in their original relative order. -/
theorem claim6_order_preservation (all : List Product) (fs : FilterState) :
    (applyFilters all fs).Sublist all :=
  applyFilters_sublist all fs

/-- C7: every product in the Filter Engine's output is in the input, and
no product occurs more often in the output than in the input. -/
theorem claim7_subset (all : List Product) (fs : FilterState) (p : Product)
    (hp : p ∈ applyFilters all fs) :
    p ∈ all ∧ (applyFilters all fs).count p ≤ all.count p :=
  ⟨(applyFilters_sublist all fs).subset hp,
    (applyFilters_sublist all fs).count_le p⟩

/-- Witness for C7 at a concrete input. -/
theorem claim7_subset_witness :
    sampleProduct ∈ applyFilters [sampleProduct] emptyFilterState ∧
      (sampleProduct ∈ [sampleProduct] ∧
        (applyFilters [sampleProduct] emptyFilterState).count sampleProduct ≤
          [sampleProduct].count sampleProduct) :=
  ⟨by decide, claim7_subset [sampleProduct] emptyFilterState sampleProduct
    (by decide)⟩

/-- C8: a successful load stores, in both variants, the first-occurrence
deduplication of the brand and category columns — duplicate-free lists
with exactly the column's values, ordered by first occurrence — and no
other event touches the two derived lists. -/
theorem claim8_derived_sets (s : AppState) (data : List Product) :
    ((autoStep s (.fetchSuccess data)).brands =
        setFrom (data.map Product.brand) ∧
      (autoStep s (.fetchSuccess data)).categories =
        setFrom (data.map Product.category) ∧
      (manualStep s (.fetchSuccess data)).brands =
        setFrom (data.map Product.brand) ∧
      (manualStep s (.fetchSuccess data)).categories =
        setFrom (data.map Product.category)) ∧
    ((setFrom (data.map Product.brand)).Nodup ∧
      (∀ b, b ∈ setFrom (data.map Product.brand) ↔
        b ∈ data.map Product.brand) ∧
      (setFrom (data.map Product.brand)).Pairwise fun x y =>
        firstIdx x (data.map Product.brand) <
          firstIdx y (data.map Product.brand)) ∧
    ((setFrom (data.map Product.category)).Nodup ∧
      (∀ c, c ∈ setFrom (data.map Product.category) ↔
        c ∈ data.map Product.category) ∧
      (setFrom (data.map Product.category)).Pairwise fun x y =>
        firstIdx x (data.map Product.category) <
          firstIdx y (data.map Product.category)) ∧
    (∀ e : Event, (∃ d, e = Event.fetchSuccess d) ∨
      ((autoStep s e).brands = s.brands ∧
        (autoStep s e).categories = s.categories ∧
        (manualStep s e).brands = s.brands ∧
        (manualStep s e).categories = s.categories)) := by
  refine ⟨⟨?_, ?_, rfl, rfl⟩,
    ⟨nodup_setFrom _, fun b => mem_setFrom, pairwise_setFrom _⟩,
    ⟨nodup_setFrom _, fun c => mem_setFrom, pairwise_setFrom _⟩, ?_⟩
  · simp only [autoStep]
    rw [if_pos (by simp)]
    rfl
  · simp only [autoStep]
    rw [if_pos (by simp)]
    rfl
  · intro e
    cases e with
    | fetchSuccess d => exact Or.inl ⟨d, rfl⟩
    | applyClick => exact Or.inr ⟨rfl, rfl, rfl, rfl⟩
    | setSearch v =>
        refine Or.inr ⟨?_, ?_, rfl, rfl⟩ <;>
          (simp only [autoStep]; split <;> rfl)
    | setBrand v =>
        refine Or.inr ⟨?_, ?_, rfl, rfl⟩ <;>
          (simp only [autoStep]; split <;> rfl)
    | setCategory v =>
        refine Or.inr ⟨?_, ?_, rfl, rfl⟩ <;>
          (simp only [autoStep]; split <;> rfl)
    | resetClick =>
        refine Or.inr ⟨?_, ?_, rfl, rfl⟩ <;>
          (simp only [autoStep]; split <;> rfl)
    | fetchError msg =>
        refine Or.inr ⟨?_, ?_, rfl, rfl⟩ <;>
          (simp only [autoStep]; split <;> rfl)

/-- C9: the text stage is governed by the trimmed search — if it trims to
empty the result is exactly the result for an empty search, otherwise the
survivors of the other two stages are filtered with the lower-cased
untrimmed search (whitespace padding included) — and in particular a
whitespace-only search behaves like an empty one. -/
theorem claim9_untrimmed_needle (all : List Product) (fs : FilterState) :
    (applyFilters all fs =
      if jsTrim fs.search = [] then
        applyFilters all ⟨fs.selectedBrand, fs.selectedCategory, []⟩
      else
        (applyFilters all ⟨fs.selectedBrand, fs.selectedCategory, []⟩).filter
          (textMatch (jsToLower fs.search))) ∧
    ((∀ c ∈ fs.search, c.isWhitespace) →
      applyFilters all fs =
        applyFilters all ⟨fs.selectedBrand, fs.selectedCategory, []⟩) := by
  have h1 : applyFilters all fs =
      if jsTrim fs.search = [] then
        applyFilters all ⟨fs.selectedBrand, fs.selectedCategory, []⟩
      else
        (applyFilters all ⟨fs.selectedBrand, fs.selectedCategory, []⟩).filter
          (textMatch (jsToLower fs.search)) := rfl
  exact ⟨h1, fun h => by
    rw [h1, if_pos ((jsTrim_eq_nil_iff fs.search).mpr h)]⟩

/-- Witness for C9 at a whitespace-only search. -/
theorem claim9_untrimmed_needle_witness :
    (∀ c ∈ wsFilterState.search, c.isWhitespace) ∧
      applyFilters [sampleProduct] wsFilterState =
        applyFilters [sampleProduct]
          ⟨wsFilterState.selectedBrand, wsFilterState.selectedCategory, []⟩ :=
  ⟨by decide,
    (claim9_untrimmed_needle [sampleProduct] wsFilterState).2 (by decide)⟩

/-- C10: a Reset, in either variant, empties the three filter inputs and
makes the full product list visible, while leaving the product list and
the two derived lists untouched. -/
theorem claim10_reset_frame (s : AppState) :
    ((manualStep s .resetClick).products = s.products ∧
      (manualStep s .resetClick).brands = s.brands ∧
      (manualStep s .resetClick).categories = s.categories ∧
      (manualStep s .resetClick).selectedBrand = [] ∧
      (manualStep s .resetClick).selectedCategory = [] ∧
      (manualStep s .resetClick).search = [] ∧
      (manualStep s .resetClick).filtered = s.products) ∧
    ((autoStep s .resetClick).products = s.products ∧
      (autoStep s .resetClick).brands = s.brands ∧
      (autoStep s .resetClick).categories = s.categories ∧
      (autoStep s .resetClick).selectedBrand = [] ∧
      (autoStep s .resetClick).selectedCategory = [] ∧
      (autoStep s .resetClick).search = [] ∧
      (autoStep s .resetClick).filtered = s.products) := by
  refine ⟨⟨rfl, rfl, rfl, rfl, rfl, rfl, rfl⟩, ?_, ?_, ?_, ?_, ?_, ?_, ?_⟩ <;>
    (simp only [autoStep]; split <;> rfl)
